import Mathlib

/-!
Shallow embedding of the Compareon comparison-list engine.

The JavaScript sources embedded here:
* `src/unnamed/part_001` — `ComparisonManager` (`addItem`, `removeItem`,
  `MAX_ITEMS`) and the compare-button click handler with its fallback-id
  logic (`handleCompareClick`).
* `src/unnamed/part_002` — two popup scripts: the first with
  `loadProductsFromStorage` / `openComparisonPage` / a soft-delete
  `removeProduct`; the second with `fetchProductsFromAPI` (the reconciler),
  `createComparisonSession` and a hard-delete `removeProduct`.
* `src/background.js` and `src/unnamed/part_000` — two versions of the
  badge-updating background script.

Timestamps (`new Date().toISOString()`) are abstracted as `Nat` ticks passed
explicitly; `chrome.storage` is modelled as the explicit `List Product` state
threaded through each operation, and the store-unavailable error paths
(`chrome.runtime.lastError`) are outside the model.  JavaScript truthiness of
a product id (`undefined` / `null` / `""` are falsy) is modelled on
`Option String` by `truthy`.
-/

namespace Compareon

/-- Item status: the code stores only the strings `active` and `removed`. -/
inductive Status where
  | active
  | removed
deriving DecidableEq, Repr

/-- A persisted comparison item.  `title`/`price`/`image`/`retailer` are the
extracted payload fields; timestamps are `Nat` ticks. -/
structure Product where
  product_id : Option String := none
  title : Option String := none
  price : Option String := none
  image : Option String := none
  retailer : Option String := none
  status : Status := Status.active
  addedAt : Option Nat := none
  updatedAt : Option Nat := none
  removedAt : Option Nat := none
  reactivatedAt : Option Nat := none
deriving DecidableEq, Repr

/-- `ComparisonManager.MAX_ITEMS` (part_001 line 7). -/
def MAX_ITEMS : Nat := 5

/-- `item.status === 'active'`. -/
def isActive (i : Product) : Bool :=
  match i.status with
  | Status.active => true
  | Status.removed => false

/-- `items.filter(item => item.status === 'active').length`. -/
def activeCount (items : List Product) : Nat :=
  (items.filter isActive).length

/-- Number of entries whose `product_id` equals `pid`. -/
def countId (pid : Option String) (items : List Product) : Nat :=
  (items.filter (fun i => decide (i.product_id = pid))).length

/-- First entry whose `product_id` matches, mirroring
`items.findIndex(item => item.product_id === product.product_id)`
(part_001 line 36): `findIndex` returns the first matching index. -/
def findFirst (pid : Option String) : List Product → Option Product
  | [] => none
  | i :: rest => if i.product_id = pid then some i else findFirst pid rest

/-- `items[existingIndex] = v` where `existingIndex` is the first index whose
`product_id` matches `pid`. -/
def replaceFirst (pid : Option String) (v : Product) : List Product → List Product
  | [] => []
  | i :: rest =>
      if i.product_id = pid then v :: rest else i :: replaceFirst pid v rest

/-- Result object resolved by `ComparisonManager.addItem` (part_001):
`{success:true, count, isReactivated}` / `{success:true, count, isReplaced}` /
`{success:true, count}` / `{success:false, isLimitReached:true}`. -/
inductive AddOutcome where
  | added (count : Nat)
  | isReplaced (count : Nat)
  | isReactivated (count : Nat)
  | isLimitReached
deriving DecidableEq, Repr

/-- `ComparisonManager.addItem` (part_001 lines 28–108).  The function first
stamps the incoming product with `status='active'` and `addedAt=now`; if an
entry with the same `product_id` exists it is replaced in place (reactivation
when it was removed, update otherwise); otherwise the capacity check
`activeItems.length >= MAX_ITEMS` guards the append. -/
def addItem (p0 : Product) (now : Nat) (items : List Product) :
    AddOutcome × List Product :=
  let product : Product := { p0 with status := Status.active, addedAt := some now }
  match findFirst product.product_id items with
  | some existing =>
      if existing.status = Status.removed then
        let newItems := replaceFirst product.product_id
          { product with reactivatedAt := some now } items
        (AddOutcome.isReactivated (activeCount newItems), newItems)
      else
        let newItems := replaceFirst product.product_id
          { product with updatedAt := some now } items
        (AddOutcome.isReplaced (activeCount newItems), newItems)
  | none =>
      if MAX_ITEMS ≤ activeCount items then
        (AddOutcome.isLimitReached, items)
      else
        let newItems := items ++ [product]
        (AddOutcome.added (activeCount newItems), newItems)

/-- Result object resolved by `ComparisonManager.removeItem`. -/
structure RemoveOutcome where
  success : Bool
  count : Nat
deriving DecidableEq, Repr

/-- `ComparisonManager.removeItem` (part_001 lines 110–137): soft delete — the
matching entries are mapped to `{...item, status:'removed', removedAt:now}`,
everything else is kept, and the call always resolves `success:true`. -/
def removeItem (productId : Option String) (now : Nat) (items : List Product) :
    RemoveOutcome × List Product :=
  let updatedItems := items.map (fun item =>
    if item.product_id = productId then
      { item with status := Status.removed, removedAt := some now }
    else item)
  ({ success := true, count := activeCount updatedItems }, updatedItems)

/-- JavaScript truthiness of a product id: `undefined`/`null` (here `none`)
and the empty string are falsy. -/
def truthy : Option String → Bool
  | none => false
  | some s => if s = "" then false else true

/-- The usable key of a record: `some k` exactly when `product.product_id`
is truthy. -/
def truthyId (p : Product) : Option String :=
  match p.product_id with
  | none => none
  | some s => if s = "" then none else some s

/-- The id finally carried by the product in `handleCompareClick`
(part_001 lines 198–207): if the extracted `product_id` is falsy and the
button attribute `data-smart-product-id` is truthy, the attribute is used;
otherwise the extracted id (possibly falsy) is kept. -/
def resolveId (extractedId buttonAttr : Option String) : Option String :=
  if truthy extractedId then extractedId
  else if truthy buttonAttr then buttonAttr
  else extractedId

/-- Tail of `handleCompareClick` (part_001 lines 198–212): after the fallback
id resolution the product is passed to `ComparisonManager.addItem`
unconditionally — there is no rejection path for a missing id. -/
def handleCompareAdd (product : Product) (buttonAttr : Option String)
    (now : Nat) (items : List Product) : AddOutcome × List Product :=
  addItem { product with product_id := resolveId product.product_id buttonAttr }
    now items

/-! ### Reconciler — `fetchProductsFromAPI` (part_002 lines 244–284)

The merge builds a JavaScript `Map` keyed by `product_id`; a `Map` is modelled
as an association list in key-insertion order, with `set` updating an
existing key in place and appending a fresh one. -/

/-- `productMap.has(k)`. -/
def mapHas (m : List (String × Product)) (k : String) : Bool :=
  match m with
  | [] => false
  | e :: rest => if e.1 = k then true else mapHas rest k

/-- `productMap.set(k, v)`: update in place if the key exists (keys in a
`Map` are unique, so only the first occurrence can match), append otherwise. -/
def mapSet (m : List (String × Product)) (k : String) (v : Product) :
    List (String × Product) :=
  match m with
  | [] => [(k, v)]
  | e :: rest => if e.1 = k then (k, v) :: rest else e :: mapSet rest k v

/-- First pass of the merge: `if (product.product_id) productMap.set(...)` for
each API product (part_002 lines 256–260). -/
def addServer (m : List (String × Product)) (p : Product) :
    List (String × Product) :=
  match truthyId p with
  | some k => mapSet m k p
  | none => m

/-- Second pass: `if (product.product_id && !productMap.has(product.product_id))
productMap.set(...)` for each local product (part_002 lines 263–273). -/
def addLocal (m : List (String × Product)) (p : Product) :
    List (String × Product) :=
  match truthyId p with
  | some k => if mapHas m k then m else mapSet m k p
  | none => m

/-- The merge in `fetchProductsFromAPI`: server products first, then local
products not yet known to the server, result read back in key-insertion order
(`Array.from(productMap.values())`). -/
def reconcile (serverItems localItems : List Product) : List Product :=
  (List.foldl addLocal (List.foldl addServer [] serverItems) localItems).map
    Prod.snd

/-- The truthy ids occurring in a list, in order. -/
def usableKeys (l : List Product) : List String :=
  l.filterMap truthyId

/-! ### Popup scripts (part_002) -/

/-- `loadProductsFromStorage` (part_002 lines 23–29, first popup):
`comparisonItems = items.filter(item => item.status === 'active')`. -/
def loadProductsFromStorage (stored : List Product) : List Product :=
  stored.filter isActive

/-- Guard of `openComparisonPage` (part_002 lines 32–36, first popup):
the function returns early — no session, no tab — when
`comparisonItems.length < 2`. -/
def openComparisonPageProceeds (comparisonItems : List Product) : Bool :=
  if comparisonItems.length < 2 then false else true

/-- Guard of `createComparisonSession` (part_002 lines 292–296, second
popup): the session-create API call is only issued when
`comparisonItems.length >= 2`; in that popup `comparisonItems` is the raw
stored list (`loadComparisonItems` does not filter by status). -/
def createComparisonSessionProceeds (comparisonItems : List Product) : Bool :=
  if comparisonItems.length < 2 then false else true

/-- `removeProduct` of the second popup (part_002 lines 471–481): a hard
delete — `comparisonItems.filter(item => item.product_id !== product_id)` is
written back to storage. -/
def removeProductPopupB (product_id : Option String)
    (comparisonItems : List Product) : List Product :=
  comparisonItems.filter (fun item => decide (item.product_id ≠ product_id))

/-- `removeProduct` of the first popup (part_002 lines 168–189): the same
soft delete as `ComparisonManager.removeItem`. -/
def removeProductPopupA (product_id : Option String) (now : Nat)
    (items : List Product) : List Product :=
  items.map (fun item =>
    if item.product_id = product_id then
      { item with status := Status.removed, removedAt := some now }
    else item)

/-! ### Badge projection (src/background.js and part_000) -/

/-- `updateBadge(count)` (identical in both background scripts): badge text is
the decimal count when positive, cleared to the empty string otherwise. -/
def updateBadge (count : Nat) : String :=
  if 0 < count then toString count else ""

/-- The `chrome.storage.onChanged` listener of `src/background.js`
(lines 4–9): `updateBadge(items.length)` — the badge is set from the TOTAL
length of the new list. -/
def backgroundOnChanged (newValue : List Product) : String :=
  updateBadge newValue.length

/-- The `chrome.storage.onChanged` listener of part_000 (lines 4–10):
`updateBadge(activeCount)` with
`activeCount = items.filter(item => item.status === 'active').length`. -/
def part000OnChanged (newValue : List Product) : String :=
  updateBadge (activeCount newValue)

/-! ### Operation sequences over the store (for the capacity invariant) -/

/-- A store mutation issued through `ComparisonManager`. -/
inductive Op where
  | add (p : Product) (now : Nat)
  | remove (pid : Option String) (now : Nat)
deriving Repr

/-- Apply one operation to the persisted list, discarding the result value. -/
def applyOp (items : List Product) : Op → List Product
  | Op.add p now => (addItem p now items).2
  | Op.remove pid now => (removeItem pid now items).2

/-- Run a sequence of operations from a starting list. -/
def runOps (items : List Product) : List Op → List Product
  | [] => items
  | op :: rest => runOps (applyOp items op) rest

/-- `addItem` takes its reactivation branch on `p` exactly when the first
entry matching `p.product_id` has status removed. -/
def reactivates (items : List Product) (p : Product) : Bool :=
  match findFirst p.product_id items with
  | some existing => match existing.status with
      | Status.removed => true
      | Status.active => false
  | none => false

/-- A run of operations performs no reactivation: no `add` is issued while a
removed entry with the same `product_id` is present. -/
def noReact (items : List Product) : List Op → Bool
  | [] => true
  | op :: rest =>
      (match op with
       | Op.add p _ => !(reactivates items p)
       | Op.remove _ _ => true) && noReact (applyOp items op) rest

/-! ### Sample records used by witnesses and counterexamples -/

/-- An active item with the given id and no payload. -/
def sampleItem (id : String) : Product :=
  { product_id := some id }

/-- A tombstone with the given id, removed at tick 0. -/
def sampleRemoved (id : String) : Product :=
  { product_id := some id, status := Status.removed, removedAt := some 0 }

/-! ### Helper lemmas -/

theorem findFirst_eq_none_iff (pid : Option String) (items : List Product) :
    findFirst pid items = none ↔ ∀ i ∈ items, i.product_id ≠ pid := by
  induction items with
  | nil => simp [findFirst]
  | cons i rest ih =>
      by_cases h : i.product_id = pid
      · simp [findFirst, h]
      · simp [findFirst, h, ih]

theorem replaceFirst_length (pid : Option String) (v : Product)
    (items : List Product) :
    (replaceFirst pid v items).length = items.length := by
  induction items with
  | nil => rfl
  | cons i rest ih =>
      by_cases h : i.product_id = pid
      · simp [replaceFirst, h]
      · simp [replaceFirst, h, ih]

theorem countId_replaceFirst (pid : Option String) (v : Product)
    (items : List Product) (hv : v.product_id = pid) :
    countId pid (replaceFirst pid v items) = countId pid items := by
  induction items with
  | nil => rfl
  | cons i rest ih =>
      by_cases h : i.product_id = pid
      · simp [replaceFirst, h, countId, List.filter, hv]
      · simp only [replaceFirst, if_neg h]
        simp [countId, List.filter, h] at ih ⊢
        exact ih

theorem activeCount_append_singleton (items : List Product) (p : Product) :
    activeCount (items ++ [p]) =
      activeCount items + (if isActive p then 1 else 0) := by
  by_cases h : isActive p
  · simp [activeCount, List.filter_append, h]
  · simp [activeCount, List.filter_append, h]

theorem activeCount_replaceFirst_active (pid : Option String) (v : Product)
    (items : List Product) (e : Product)
    (hfind : findFirst pid items = some e)
    (he : isActive e = true) (hv : isActive v = true) :
    activeCount (replaceFirst pid v items) = activeCount items := by
  induction items with
  | nil => simp [findFirst] at hfind
  | cons i rest ih =>
      by_cases h : i.product_id = pid
      · have hie : i = e := by simpa [findFirst, h] using hfind
        subst hie
        simp [replaceFirst, h, activeCount, List.filter, he, hv]
      · have hfind' : findFirst pid rest = some e := by
          simpa [findFirst, h] using hfind
        have := ih hfind'
        by_cases hi : isActive i
        · simpa [replaceFirst, h, activeCount, List.filter, hi] using this
        · simpa [replaceFirst, h, activeCount, List.filter, hi] using this

/-- The no-match branch of `addItem` with room left: the stamped product is
appended. -/
theorem addItem_not_found_room (p : Product) (now : Nat) (items : List Product)
    (hnone : findFirst p.product_id items = none)
    (hroom : activeCount items < MAX_ITEMS) :
    addItem p now items =
      (AddOutcome.added
        (activeCount (items ++ [{ p with status := Status.active, addedAt := some now }])),
       items ++ [{ p with status := Status.active, addedAt := some now }]) := by
  unfold addItem
  simp [hnone, Nat.not_le.mpr hroom]

/-- The no-match branch of `addItem` at capacity: failure, state untouched. -/
theorem addItem_not_found_full (p : Product) (now : Nat) (items : List Product)
    (hnone : findFirst p.product_id items = none)
    (hfull : MAX_ITEMS ≤ activeCount items) :
    addItem p now items = (AddOutcome.isLimitReached, items) := by
  unfold addItem
  simp [hnone, hfull]

/-! ### C2 — capacity check on a brand-new id -/

/-- C2: with exactly `MAX_ITEMS` (5) items active, `addItem` on a
`product_id` that has no entry in the list (active or removed) returns the
`isLimitReached` failure and the persisted list is completely unchanged —
the function returns before any storage write. -/
theorem addItem_capacity_exceeded (p : Product) (now : Nat)
    (items : List Product)
    (hfull : activeCount items = MAX_ITEMS)
    (hnone : findFirst p.product_id items = none) :
    addItem p now items = (AddOutcome.isLimitReached, items) :=
  addItem_not_found_full p now items hnone (le_of_eq hfull.symm)

/-- Witness for C2: five distinct active items, adding a sixth new id fails
and leaves the list unchanged. -/
theorem addItem_capacity_exceeded_witness :
    activeCount [sampleItem "A", sampleItem "B", sampleItem "C",
        sampleItem "D", sampleItem "E"] = MAX_ITEMS
    ∧ findFirst (some "F") [sampleItem "A", sampleItem "B", sampleItem "C",
        sampleItem "D", sampleItem "E"] = none
    ∧ addItem (sampleItem "F") 9 [sampleItem "A", sampleItem "B",
        sampleItem "C", sampleItem "D", sampleItem "E"]
      = (AddOutcome.isLimitReached,
         [sampleItem "A", sampleItem "B", sampleItem "C", sampleItem "D",
          sampleItem "E"]) :=
  ⟨by decide, by decide,
   addItem_capacity_exceeded (sampleItem "F") 9 _ (by decide) (by decide)⟩

/-! ### C3 — reactivation of a removed entry -/

/-- C3: when the first entry matching the incoming `product_id` has status
removed, `addItem` replaces that entry in place with the incoming fields,
stamped `status=active`, `addedAt=now`, `reactivatedAt=now`; no capacity
condition appears among the hypotheses (the branch precedes the capacity
check), the list length is unchanged and the number of entries carrying this
`product_id` is unchanged (no duplicate is created). -/
theorem addItem_reactivates_removed (p : Product) (now : Nat)
    (items : List Product) (e : Product)
    (hfind : findFirst p.product_id items = some e)
    (he : e.status = Status.removed) :
    addItem p now items =
      (AddOutcome.isReactivated (activeCount (replaceFirst p.product_id
          { p with status := Status.active, addedAt := some now,
                   reactivatedAt := some now } items)),
       replaceFirst p.product_id
          { p with status := Status.active, addedAt := some now,
                   reactivatedAt := some now } items)
    ∧ (replaceFirst p.product_id
          { p with status := Status.active, addedAt := some now,
                   reactivatedAt := some now } items).length = items.length
    ∧ countId p.product_id (replaceFirst p.product_id
          { p with status := Status.active, addedAt := some now,
                   reactivatedAt := some now } items) =
        countId p.product_id items := by
  refine ⟨?_, replaceFirst_length _ _ _, countId_replaceFirst _ _ _ rfl⟩
  unfold addItem
  simp [hfind, he]

/-- Witness for C3: a removed entry is reactivated while five other items
are already active, so the capacity check is indeed bypassed. -/
theorem addItem_reactivates_removed_witness :
    findFirst (some "X") [sampleItem "A", sampleItem "B", sampleItem "C",
        sampleItem "D", sampleItem "E", sampleRemoved "X"] =
      some (sampleRemoved "X")
    ∧ (sampleRemoved "X").status = Status.removed
    ∧ activeCount [sampleItem "A", sampleItem "B", sampleItem "C",
        sampleItem "D", sampleItem "E", sampleRemoved "X"] = MAX_ITEMS
    ∧ addItem (sampleItem "X") 7 [sampleItem "A", sampleItem "B",
        sampleItem "C", sampleItem "D", sampleItem "E", sampleRemoved "X"]
      = (AddOutcome.isReactivated 6,
         [sampleItem "A", sampleItem "B", sampleItem "C", sampleItem "D",
          sampleItem "E",
          { product_id := some "X", status := Status.active,
            addedAt := some 7, reactivatedAt := some 7 }]) := by
  refine ⟨by decide, by decide, by decide, ?_⟩
  have h := addItem_reactivates_removed (sampleItem "X") 7
    [sampleItem "A", sampleItem "B", sampleItem "C", sampleItem "D",
     sampleItem "E", sampleRemoved "X"] (sampleRemoved "X")
    (by decide) (by decide)
  refine h.1.trans (by decide)

/-! ### More helper lemmas for `removeItem` -/

/-- The per-item function applied by `removeItem`. -/
def markRemoved (productId : Option String) (now : Nat) (item : Product) :
    Product :=
  if item.product_id = productId then
    { item with status := Status.removed, removedAt := some now }
  else item

theorem removeItem_snd (productId : Option String) (now : Nat)
    (items : List Product) :
    (removeItem productId now items).2 = items.map (markRemoved productId now) := by
  simp [removeItem, markRemoved]

theorem markRemoved_id (productId : Option String) (now : Nat)
    (item : Product) :
    (markRemoved productId now item).product_id = item.product_id := by
  unfold markRemoved
  by_cases h : item.product_id = productId <;> simp [h]

theorem markRemoved_idem (productId : Option String) (now : Nat)
    (item : Product) :
    markRemoved productId now (markRemoved productId now item) =
      markRemoved productId now item := by
  unfold markRemoved
  by_cases h : item.product_id = productId <;> simp [h]

theorem activeCount_map_congr (f : Product → Product) (items : List Product)
    (h : ∀ i ∈ items, isActive (f i) = isActive i) :
    activeCount (items.map f) = activeCount items := by
  induction items with
  | nil => rfl
  | cons i rest ih =>
      have hi := h i (List.mem_cons_self i rest)
      have ih' := ih (fun j hj => h j (List.mem_cons_of_mem i hj))
      by_cases ha : isActive i
      · simp [activeCount, List.filter, ha, hi] at ih' ⊢
        exact ih'
      · simp only [Bool.not_eq_true] at ha
        simp [activeCount, List.filter, ha, hi] at ih' ⊢
        exact ih'

/-! ### C8 — removal on absent / already-removed ids (corrected) -/

/-- Counterexample to C8 as stated: removing an already-removed entry is not
a no-op on the list — the code rebuilds the record with a fresh `removedAt`,
so the stored tombstone changes (`removedAt` goes from tick 0 to tick 1). -/
theorem removeItem_removed_again_changes_list :
    (removeItem (some "A") 1 [sampleRemoved "A"]).2 ≠ [sampleRemoved "A"]
    ∧ (removeItem (some "A") 1 [sampleRemoved "A"]).2
        = [{ product_id := some "A", status := Status.removed,
             removedAt := some 1 }] := by
  constructor
  · decide
  · decide

/-- C8 amended: `removeItem` is total and always reports success; on a
`product_id` matching no entry it is a strict no-op; on entries that are all
already removed it changes no status and leaves `activeCount` unchanged
(only `removedAt` is refreshed); and repeating a remove with the same
timestamp yields the identical outcome and list. -/
theorem removeItem_idempotent_total (productId : Option String) (now : Nat)
    (items : List Product) :
    (findFirst productId items = none →
       removeItem productId now items =
         ({ success := true, count := activeCount items }, items))
    ∧ (removeItem productId now items).1.success = true
    ∧ ((∀ i ∈ items, i.product_id = productId → i.status = Status.removed) →
        activeCount (removeItem productId now items).2 = activeCount items)
    ∧ removeItem productId now ((removeItem productId now items).2) =
        removeItem productId now items := by
  refine ⟨?_, rfl, ?_, ?_⟩
  · intro hnone
    have habsent := (findFirst_eq_none_iff productId items).mp hnone
    have hmap : items.map (markRemoved productId now) = items := by
      have h1 : items.map (markRemoved productId now) = items.map id :=
        List.map_congr_left (fun i hi => by simp [markRemoved, habsent i hi])
      simpa using h1
    have h2 : (removeItem productId now items).2 = items := by
      rw [removeItem_snd]; exact hmap
    have hpair : removeItem productId now items =
        ({ success := true,
           count := activeCount (removeItem productId now items).2 },
         (removeItem productId now items).2) := rfl
    rw [hpair, h2]
  · intro hrem
    rw [removeItem_snd]
    refine activeCount_map_congr _ _ ?_
    intro i hi
    unfold markRemoved
    by_cases h : i.product_id = productId
    · simp [h, isActive, hrem i hi h]
    · simp [h]
  · have key : (removeItem productId now ((removeItem productId now items).2)).2
        = (removeItem productId now items).2 := by
      rw [removeItem_snd, removeItem_snd, List.map_map]
      exact List.map_congr_left (fun i _ => by
        simp [Function.comp, markRemoved_idem productId now i])
    have e1 : removeItem productId now ((removeItem productId now items).2) =
        ({ success := true,
           count := activeCount
             (removeItem productId now ((removeItem productId now items).2)).2 },
         (removeItem productId now ((removeItem productId now items).2)).2) := rfl
    have e2 : removeItem productId now items =
        ({ success := true,
           count := activeCount (removeItem productId now items).2 },
         (removeItem productId now items).2) := rfl
    rw [e1, e2, key]

/-- Witness for C8's amended theorem: a list holding one tombstone `A`;
removing the absent id `B` is a strict no-op with success. -/
theorem removeItem_idempotent_total_witness :
    findFirst (some "B") [sampleRemoved "A"] = none
    ∧ removeItem (some "B") 3 [sampleRemoved "A"]
        = ({ success := true, count := 0 }, [sampleRemoved "A"])
    ∧ removeItem (some "B") 3 ((removeItem (some "B") 3 [sampleRemoved "A"]).2)
        = removeItem (some "B") 3 [sampleRemoved "A"] := by
  have h := removeItem_idempotent_total (some "B") 3 [sampleRemoved "A"]
  refine ⟨by decide, ?_, h.2.2.2⟩
  have := h.1 (by decide)
  simpa using this

/-! ### C4 — tombstones (corrected) -/

/-- Counterexample to C4 as stated: the second popup's `removeProduct`
(part_002 lines 471–481) hard-deletes — called on a list holding the
tombstone `A`, it writes back the empty list, destroying the tombstone and
shrinking the list. -/
theorem removeProductPopupB_destroys_tombstone :
    removeProductPopupB (some "A") [sampleRemoved "A"] = []
    ∧ [sampleRemoved "A"].length = 1 := by
  constructor
  · decide
  · decide

/-- C4 amended: `ComparisonManager.removeItem` is a soft delete — it keeps
the list length and the stored `product_id`s intact and turns each matching
entry into a tombstone with `removedAt` set — but the second popup's
`removeProduct` is a hard delete: it erases every entry carrying the id,
shrinking the list by the number of such entries. -/
theorem removeItem_soft_delete (productId : Option String) (now : Nat)
    (items : List Product) :
    ((removeItem productId now items).2).length = items.length
    ∧ ((removeItem productId now items).2).map (fun i => i.product_id)
        = items.map (fun i => i.product_id)
    ∧ (∀ i ∈ items, i.product_id = productId →
        ({ i with status := Status.removed, removedAt := some now } : Product)
          ∈ (removeItem productId now items).2)
    ∧ countId productId (removeProductPopupB productId items) = 0
    ∧ (removeProductPopupB productId items).length
        = items.length - countId productId items := by
  refine ⟨?_, ?_, ?_, ?_, ?_⟩
  · rw [removeItem_snd]; simp
  · rw [removeItem_snd, List.map_map]
    exact List.map_congr_left (fun i _ => markRemoved_id productId now i)
  · intro i hi hmatch
    rw [removeItem_snd]
    refine List.mem_map.mpr ⟨i, hi, ?_⟩
    simp [markRemoved, hmatch]
  · unfold removeProductPopupB countId
    rw [List.filter_filter]
    have : ∀ i : Product,
        (decide (i.product_id = productId) &&
          decide (i.product_id ≠ productId)) = false := by
      intro i
      by_cases h : i.product_id = productId <;> simp [h]
    simp only [this, List.filter_false, List.length_nil]
  · unfold removeProductPopupB countId
    have hpred : (fun item : Product => decide (item.product_id ≠ productId))
        = (fun item : Product => !decide (item.product_id = productId)) := by
      funext item
      by_cases h : item.product_id = productId <;> simp [h]
    rw [hpred]
    induction items with
    | nil => rfl
    | cons i rest ih =>
        have hle : (List.filter
            (fun i => decide (i.product_id = productId)) rest).length
            ≤ rest.length := List.length_filter_le _ _
        by_cases h : i.product_id = productId
        · simp [List.filter_cons, h]
          omega
        · simp [List.filter_cons, h]
          omega

/-- Witness for C4's amended theorem at a concrete state: one active `A`,
one tombstone `B`; `removeItem A` keeps both entries while
`removeProductPopupB A` erases the matching entry. -/
theorem removeItem_soft_delete_witness :
    ((removeItem (some "A") 4 [sampleItem "A", sampleRemoved "B"]).2).length = 2
    ∧ ({ product_id := some "A", status := Status.removed,
         removedAt := some 4 } : Product)
        ∈ (removeItem (some "A") 4 [sampleItem "A", sampleRemoved "B"]).2
    ∧ (removeProductPopupB (some "A") [sampleItem "A", sampleRemoved "B"]).length
        = 1 := by
  have h := removeItem_soft_delete (some "A") 4 [sampleItem "A", sampleRemoved "B"]
  refine ⟨by decide, ?_, by decide⟩
  exact h.2.2.1 (sampleItem "A") (by decide) (by decide)

/-! ### C6 — minimum-items guard for session creation (corrected) -/

/-- Counterexample to C6 as stated: with one active item and one tombstone in
storage, `activeCount = 1`, yet `createComparisonSession` (second popup)
passes its guard — `comparisonItems` there is the raw stored list, whose
length 2 counts the tombstone — and so the session API call is issued. -/
theorem createSession_proceeds_with_one_active :
    activeCount [sampleItem "A", sampleRemoved "B"] = 1
    ∧ createComparisonSessionProceeds [sampleItem "A", sampleRemoved "B"]
        = true := by
  constructor
  · decide
  · decide

/-- C6 amended: both guards compare the popup's loaded list length against 2.
In the first popup (`openComparisonPage`) the loaded list is pre-filtered to
active items, so the guard is exactly `activeCount ≥ 2` and with fewer than 2
active items no session is opened; in the second popup
(`createComparisonSession`) the guard counts the raw stored list, tombstones
included. -/
theorem session_guard_loaded_length (stored : List Product) :
    (activeCount stored < 2 →
       openComparisonPageProceeds (loadProductsFromStorage stored) = false)
    ∧ (openComparisonPageProceeds (loadProductsFromStorage stored) = true
        ↔ 2 ≤ activeCount stored)
    ∧ (createComparisonSessionProceeds stored = true ↔ 2 ≤ stored.length) := by
  have hlen : (loadProductsFromStorage stored).length = activeCount stored := rfl
  refine ⟨?_, ?_, ?_⟩
  · intro h
    unfold openComparisonPageProceeds
    rw [hlen]
    simp [h]
  · unfold openComparisonPageProceeds
    rw [hlen]
    by_cases h : activeCount stored < 2
    · simp [h]
    · simp [h]
      omega
  · unfold createComparisonSessionProceeds
    by_cases h : stored.length < 2
    · simp [h]
    · simp [h]
      omega

/-- Witness for C6's amended theorem: list with a single active item — the
first popup's guard blocks. -/
theorem session_guard_loaded_length_witness :
    activeCount [sampleItem "A"] < 2
    ∧ openComparisonPageProceeds (loadProductsFromStorage [sampleItem "A"])
        = false :=
  ⟨by decide, (session_guard_loaded_length [sampleItem "A"]).1 (by decide)⟩

/-! ### C7 — badge projection (corrected) -/

/-- Counterexample to C7 as stated: after the mutation `removeItem B` on two
active items, the stored list is `[A(active), B(removed)]`; `src/background.js`'s
storage listener sets the badge from the TOTAL list length, rendering `"2"`
although only 1 item is active — the tombstone is counted. -/
theorem background_badge_counts_tombstones :
    activeCount ((removeItem (some "B") 1 [sampleItem "A", sampleItem "B"]).2)
        = 1
    ∧ backgroundOnChanged
        ((removeItem (some "B") 1 [sampleItem "A", sampleItem "B"]).2)
        = "2" := by
  constructor
  · decide
  · decide

/-- C7 amended: part_000's storage listener projects the badge from the
active count — rendered as the decimal count when positive and cleared to
the empty string when 0 — while `src/background.js`'s listener projects it
from the total stored length, so there tombstones are counted. -/
theorem badge_projection (items : List Product) :
    (0 < activeCount items →
        part000OnChanged items = toString (activeCount items))
    ∧ (activeCount items = 0 → part000OnChanged items = "")
    ∧ backgroundOnChanged items = updateBadge items.length := by
  refine ⟨?_, ?_, rfl⟩
  · intro h
    unfold part000OnChanged updateBadge
    simp [h]
  · intro h
    unfold part000OnChanged updateBadge
    simp [h]

/-- Witness for C7's amended theorem: one active item plus one tombstone —
part_000 renders `"1"`. -/
theorem badge_projection_witness :
    0 < activeCount [sampleItem "A", sampleRemoved "B"]
    ∧ part000OnChanged [sampleItem "A", sampleRemoved "B"]
        = toString (activeCount [sampleItem "A", sampleRemoved "B"]) :=
  ⟨by decide, (badge_projection [sampleItem "A", sampleRemoved "B"]).1 (by decide)⟩

/-! ### C9 — missing product id (corrected) -/

/-- Counterexample to C9 as stated: an extracted product with no
`product_id` and no button attribute is NOT rejected — `handleCompareClick`
only logs a warning and still calls `addItem`, which appends a record with no
identifier. -/
theorem handleCompare_inserts_without_id :
    (handleCompareAdd {} none 0 []).1 = AddOutcome.added 1
    ∧ (handleCompareAdd {} none 0 []).2
        = [{ product_id := none, status := Status.active, addedAt := some 0 }] := by
  constructor
  · decide
  · decide

/-- C9 amended: the fallback id from the button attribute is consulted
exactly when the extracted `product_id` is falsy; but when neither source
yields a usable identifier the add is NOT rejected — the product is passed to
`addItem` unchanged, and (on a list with no matching entry and free capacity)
an identifier-less record is appended. -/
theorem fallback_id_then_insert (product : Product)
    (buttonAttr : Option String) (now : Nat) (items : List Product) :
    (truthy product.product_id = true →
        resolveId product.product_id buttonAttr = product.product_id)
    ∧ (truthy product.product_id = false → truthy buttonAttr = true →
        resolveId product.product_id buttonAttr = buttonAttr)
    ∧ (truthy product.product_id = false → truthy buttonAttr = false →
        handleCompareAdd product buttonAttr now items = addItem product now items)
    ∧ (truthy product.product_id = false → truthy buttonAttr = false →
        findFirst product.product_id items = none →
        activeCount items < MAX_ITEMS →
        (handleCompareAdd product buttonAttr now items).2 =
          items ++
            [{ product with status := Status.active, addedAt := some now }]) := by
    have hres : truthy product.product_id = false → truthy buttonAttr = false →
        resolveId product.product_id buttonAttr = product.product_id := by
      intro h1 h2
      unfold resolveId
      simp [h1, h2]
    have hsame : truthy product.product_id = false → truthy buttonAttr = false →
        handleCompareAdd product buttonAttr now items
          = addItem product now items := by
      intro h1 h2
      unfold handleCompareAdd
      rw [hres h1 h2]
    refine ⟨?_, ?_, hsame, ?_⟩
    · intro h
      unfold resolveId
      simp [h]
    · intro h1 h2
      unfold resolveId
      simp [h1, h2]
    · intro h1 h2 hnone hroom
      rw [hsame h1 h2,
        addItem_not_found_room product now items hnone hroom]

/-- Witness for C9's amended theorem: empty extraction, empty button
attribute, empty list — the id-less record is appended anyway. -/
theorem fallback_id_then_insert_witness :
    truthy (({} : Product).product_id) = false
    ∧ (handleCompareAdd {} none 5 []).2
        = [{ product_id := none, status := Status.active, addedAt := some 5 }] :=
  ⟨by decide,
   (fallback_id_then_insert {} none 5 []).2.2.2 (by decide) (by decide)
     (by decide) (by decide)⟩

/-! ### C1 — the capacity invariant over add/remove sequences (corrected) -/

/-- Eight operations from the empty list: five adds fill the list, `A` is
removed, a sixth id `F` takes the freed slot, and re-adding `A` reactivates
its tombstone past the capacity check. -/
def overflowOps : List Op :=
  [Op.add (sampleItem "A") 0, Op.add (sampleItem "B") 1,
   Op.add (sampleItem "C") 2, Op.add (sampleItem "D") 3,
   Op.add (sampleItem "E") 4, Op.remove (some "A") 5,
   Op.add (sampleItem "F") 6, Op.add (sampleItem "A") 7]

/-- Counterexample to C1 as stated: the `overflowOps` sequence of adds and
removes, applied to the initially empty list, ends with SIX items active —
`activeCount` does exceed `MAX_ITEMS` when a removed item is re-added while
five others are active. -/
theorem activeCount_exceeds_MAX :
    activeCount (runOps [] overflowOps) = 6 ∧ MAX_ITEMS < 6 := by
  constructor
  · decide
  · decide

theorem isActive_markRemoved_eq (pid : Option String) (now : Nat)
    (item : Product) (h : item.product_id = pid) :
    isActive (markRemoved pid now item) = false := by
  simp [markRemoved, h, isActive]

theorem isActive_markRemoved_ne (pid : Option String) (now : Nat)
    (item : Product) (h : ¬ item.product_id = pid) :
    isActive (markRemoved pid now item) = isActive item := by
  simp [markRemoved, h]

theorem activeCount_removeItem_le (pid : Option String) (now : Nat)
    (items : List Product) :
    activeCount (removeItem pid now items).2 ≤ activeCount items := by
  rw [removeItem_snd]
  induction items with
  | nil => exact le_refl _
  | cons i rest ih =>
      by_cases h : i.product_id = pid
      · have hm := isActive_markRemoved_eq pid now i h
        simp only [List.map_cons, activeCount, List.filter_cons, hm] at ih ⊢
        by_cases hi : isActive i <;> simp [hi] <;> omega
      · have hm := isActive_markRemoved_ne pid now i h
        simp only [List.map_cons, activeCount, List.filter_cons, hm] at ih ⊢
        by_cases hi : isActive i <;> simp [hi] <;> omega

theorem addItem_found_active (p : Product) (now : Nat)
    (items : List Product) (e : Product)
    (hfind : findFirst p.product_id items = some e)
    (he : e.status = Status.active) :
    addItem p now items =
      (AddOutcome.isReplaced (activeCount (replaceFirst p.product_id
          { p with status := Status.active, addedAt := some now,
                   updatedAt := some now } items)),
       replaceFirst p.product_id
          { p with status := Status.active, addedAt := some now,
                   updatedAt := some now } items) := by
  unfold addItem
  simp [hfind, he]

theorem activeCount_addItem_le (p : Product) (now : Nat)
    (items : List Product)
    (h5 : activeCount items ≤ MAX_ITEMS)
    (hnr : reactivates items p = false) :
    activeCount (addItem p now items).2 ≤ MAX_ITEMS := by
  cases hf : findFirst p.product_id items with
  | none =>
      by_cases hle : MAX_ITEMS ≤ activeCount items
      · rw [addItem_not_found_full p now items hf hle]
        exact h5
      · rw [addItem_not_found_room p now items hf (Nat.not_le.mp hle)]
        simp only [activeCount_append_singleton]
        have : isActive { p with status := Status.active, addedAt := some now }
            = true := rfl
        rw [this]
        simp only [if_true]
        omega
  | some e =>
      have he : e.status = Status.active := by
        have hred : reactivates items p = (match e.status with
            | Status.removed => true
            | Status.active => false) := by
          unfold reactivates
          rw [hf]
        rw [hred] at hnr
        cases hstat : e.status
        · rfl
        · rw [hstat] at hnr
          simp at hnr
      have h2 : (addItem p now items).2 = replaceFirst p.product_id { p with status := Status.active, addedAt := some now, updatedAt := some now } items := by
        rw [addItem_found_active p now items e hf he]
      have hcount := activeCount_replaceFirst_active p.product_id { p with status := Status.active, addedAt := some now, updatedAt := some now } items e hf (by simp [isActive, he]) rfl
      rw [h2, hcount]
      exact h5

theorem noReact_run_le (ops : List Op) :
    ∀ items, activeCount items ≤ MAX_ITEMS → noReact items ops = true →
      activeCount (runOps items ops) ≤ MAX_ITEMS := by
  induction ops with
  | nil =>
      intro items h _
      simpa [runOps] using h
  | cons op rest ih =>
      intro items h hnr
      unfold noReact at hnr
      rw [Bool.and_eq_true] at hnr
      obtain ⟨h1, h2⟩ := hnr
      show activeCount (runOps (applyOp items op) rest) ≤ MAX_ITEMS
      refine ih (applyOp items op) ?_ h2
      cases op with
      | add p now =>
          have : reactivates items p = false := by simpa using h1
          exact activeCount_addItem_le p now items h this
      | remove pid now =>
          exact le_trans (activeCount_removeItem_le pid now items) h

/-- C1 amended: the capacity bound holds for every sequence of adds and
removes that performs no reactivation — whenever no `add` is issued while a
removed tombstone with the same id is present, `activeCount` never exceeds
`MAX_ITEMS`.  (The unrestricted claim is false: reactivation bypasses the
capacity check, see the counterexample.) -/
theorem activeCount_le_MAX_of_noReact (ops : List Op)
    (h : noReact [] ops = true) :
    activeCount (runOps [] ops) ≤ MAX_ITEMS :=
  noReact_run_le ops [] (by simp [activeCount]) h

/-- Witness for C1's amended theorem: a reactivation-free run — two adds, a
remove, and an add of a fresh id. -/
theorem activeCount_le_MAX_of_noReact_witness :
    noReact [] [Op.add (sampleItem "A") 0, Op.add (sampleItem "B") 1,
        Op.remove (some "A") 2, Op.add (sampleItem "C") 3] = true
    ∧ activeCount (runOps [] [Op.add (sampleItem "A") 0,
        Op.add (sampleItem "B") 1, Op.remove (some "A") 2,
        Op.add (sampleItem "C") 3]) ≤ MAX_ITEMS :=
  ⟨by decide,
   activeCount_le_MAX_of_noReact
     [Op.add (sampleItem "A") 0, Op.add (sampleItem "B") 1,
      Op.remove (some "A") 2, Op.add (sampleItem "C") 3] (by decide)⟩

/-! ### Reconciler lemmas -/

/-- The key-record pair a server product contributes, if its id is usable. -/
def pairOf (p : Product) : Option (String × Product) :=
  (truthyId p).map (fun k => (k, p))

/-- The key-record pair a local product contributes to the merge against the
map `m`: only when its id is usable and not already a key of `m`. -/
def localPick (m : List (String × Product)) (p : Product) :
    Option (String × Product) :=
  match truthyId p with
  | none => none
  | some k => if mapHas m k then none else some (k, p)

theorem filterMap_congr_on {α β : Type} (l : List α) (f g : α → Option β)
    (h : ∀ a ∈ l, f a = g a) : l.filterMap f = l.filterMap g := by
  induction l with
  | nil => rfl
  | cons a rest ih =>
      have ha := h a (List.mem_cons_self a rest)
      have ih' := ih (fun b hb => h b (List.mem_cons_of_mem a hb))
      simp [List.filterMap_cons, ha, ih']

theorem filterMap_eq_map_of_some {α β : Type} (l : List α) (f : α → Option β)
    (g : α → β) (h : ∀ a ∈ l, f a = some (g a)) : l.filterMap f = l.map g := by
  induction l with
  | nil => rfl
  | cons a rest ih =>
      have ha := h a (List.mem_cons_self a rest)
      have ih' := ih (fun b hb => h b (List.mem_cons_of_mem a hb))
      simp [List.filterMap_cons, ha, ih']

theorem mapHas_iff (m : List (String × Product)) (k : String) :
    mapHas m k = true ↔ k ∈ m.map Prod.fst := by
  induction m with
  | nil => simp [mapHas]
  | cons e rest ih =>
      by_cases h : e.1 = k
      · simp [mapHas, h]
      · have hne : ¬ k = e.1 := fun hc => h hc.symm
        simp [mapHas, h, ih, hne]

theorem mapSet_not_mem (m : List (String × Product)) (k : String) (v : Product)
    (h : k ∉ m.map Prod.fst) :
    mapSet m k v = m ++ [(k, v)] := by
  induction m with
  | nil => rfl
  | cons e rest ih =>
      simp only [List.map_cons, List.mem_cons] at h
      push_neg at h
      have h1 : ¬ e.1 = k := fun hc => h.1 hc.symm
      simp [mapSet, h1, ih h.2]

theorem mapHas_append_single (m : List (String × Product)) (k : String)
    (v : Product) (k' : String) (hne : k' ≠ k) :
    mapHas (m ++ [(k, v)]) k' = mapHas m k' := by
  cases hb : mapHas m k'
  · have hnot : k' ∉ m.map Prod.fst := by
      intro hc
      have := (mapHas_iff m k').mpr hc
      simp [this] at hb
    have hnot2 : ¬ k' ∈ (m ++ [(k, v)]).map Prod.fst := by
      simp only [List.map_append, List.mem_append, List.map_cons,
        List.map_nil, List.mem_singleton]
      rintro (hc | hc)
      · exact hnot hc
      · exact hne hc
    cases hb2 : mapHas (m ++ [(k, v)]) k'
    · rfl
    · exact absurd ((mapHas_iff _ _).mp hb2) hnot2
  · have hmem := (mapHas_iff m k').mp hb
    have hmem2 : k' ∈ (m ++ [(k, v)]).map Prod.fst := by
      simp only [List.map_append, List.mem_append]
      exact Or.inl hmem
    rw [(mapHas_iff _ _).mpr hmem2]

theorem usableKeys_cons_none (p : Product) (rest : List Product)
    (hp : truthyId p = none) : usableKeys (p :: rest) = usableKeys rest := by
  simp [usableKeys, List.filterMap_cons, hp]

theorem usableKeys_cons_some (p : Product) (rest : List Product) (k : String)
    (hp : truthyId p = some k) :
    usableKeys (p :: rest) = k :: usableKeys rest := by
  simp [usableKeys, List.filterMap_cons, hp]

theorem foldl_addServer (l : List Product) :
    ∀ m, (usableKeys l).Nodup →
      (∀ k ∈ usableKeys l, k ∉ m.map Prod.fst) →
      List.foldl addServer m l = m ++ l.filterMap pairOf := by
  induction l with
  | nil =>
      intro m _ _
      simp
  | cons p rest ih =>
      intro m hnd hdisj
      cases hp : truthyId p with
      | none =>
          rw [usableKeys_cons_none p rest hp] at hnd hdisj
          have haddeq : addServer m p = m := by simp [addServer, hp]
          rw [List.foldl_cons, haddeq, ih m hnd hdisj]
          simp [List.filterMap_cons, pairOf, hp]
      | some k =>
          rw [usableKeys_cons_some p rest k hp] at hnd hdisj
          have hknotin : k ∉ m.map Prod.fst :=
            hdisj k (List.mem_cons_self k _)
          have haddeq : addServer m p = m ++ [(k, p)] := by
            simp [addServer, hp, mapSet_not_mem m k p hknotin]
          have hnd' : (usableKeys rest).Nodup := (List.nodup_cons.mp hnd).2
          have hknot_rest : k ∉ usableKeys rest := (List.nodup_cons.mp hnd).1
          have hdisj' : ∀ k' ∈ usableKeys rest,
              k' ∉ (m ++ [(k, p)]).map Prod.fst := by
            intro k' hk'
            simp only [List.map_append, List.mem_append, List.map_cons,
              List.map_nil, List.mem_singleton]
            rintro (hc | hc)
            · exact hdisj k' (List.mem_cons_of_mem _ hk') hc
            · exact hknot_rest (hc ▸ hk')
          rw [List.foldl_cons, haddeq, ih (m ++ [(k, p)]) hnd' hdisj']
          simp [List.filterMap_cons, pairOf, hp]

theorem foldl_addLocal (l : List Product) :
    ∀ m, (usableKeys l).Nodup →
      List.foldl addLocal m l = m ++ l.filterMap (localPick m) := by
  induction l with
  | nil =>
      intro m _
      simp
  | cons p rest ih =>
      intro m hnd
      cases hp : truthyId p with
      | none =>
          rw [usableKeys_cons_none p rest hp] at hnd
          have haddeq : addLocal m p = m := by simp [addLocal, hp]
          rw [List.foldl_cons, haddeq, ih m hnd]
          simp [List.filterMap_cons, localPick, hp]
      | some k =>
          rw [usableKeys_cons_some p rest k hp] at hnd
          have hnd' : (usableKeys rest).Nodup := (List.nodup_cons.mp hnd).2
          have hknot_rest : k ∉ usableKeys rest := (List.nodup_cons.mp hnd).1
          cases hhas : mapHas m k with
          | true =>
              have haddeq : addLocal m p = m := by simp [addLocal, hp, hhas]
              rw [List.foldl_cons, haddeq, ih m hnd']
              simp [List.filterMap_cons, localPick, hp, hhas]
          | false =>
              have hknotin : k ∉ m.map Prod.fst := by
                intro hc
                simp [(mapHas_iff m k).mpr hc] at hhas
              have haddeq : addLocal m p = m ++ [(k, p)] := by
                simp [addLocal, hp, hhas, mapSet_not_mem m k p hknotin]
              rw [List.foldl_cons, haddeq, ih (m ++ [(k, p)]) hnd']
              have hsame : rest.filterMap (localPick (m ++ [(k, p)]))
                  = rest.filterMap (localPick m) := by
                refine filterMap_congr_on rest _ _ ?_
                intro q hq
                cases hq' : truthyId q with
                | none => simp [localPick, hq']
                | some k' =>
                    have hk'ne : k' ≠ k := by
                      intro hc
                      subst hc
                      exact hknot_rest
                        (List.mem_filterMap.mpr ⟨q, hq, hq'⟩)
                    simp [localPick, hq',
                      mapHas_append_single m k p k' hk'ne]
              rw [hsame]
              simp [List.filterMap_cons, localPick, hp, hhas]

theorem pairOf_keys (l : List Product) :
    (l.filterMap pairOf).map Prod.fst = usableKeys l := by
  induction l with
  | nil => rfl
  | cons p rest ih =>
      cases hp : truthyId p with
      | none => simp [List.filterMap_cons, pairOf, hp, usableKeys, ih]
      | some k =>
          simp [List.filterMap_cons, pairOf, hp, usableKeys] at ih ⊢
          exact ih

theorem localPick_keys (m : List (String × Product)) (l : List Product) :
    (l.filterMap (localPick m)).map Prod.fst
      = (usableKeys l).filter (fun k => !(mapHas m k)) := by
  induction l with
  | nil => rfl
  | cons p rest ih =>
      cases hp : truthyId p with
      | none =>
          rw [usableKeys_cons_none p rest hp]
          simpa [List.filterMap_cons, localPick, hp] using ih
      | some k =>
          rw [usableKeys_cons_some p rest k hp]
          cases hhas : mapHas m k with
          | true =>
              simp only [List.filterMap_cons, localPick, hp, hhas, if_true]
              rw [List.filter_cons]
              simp [hhas, ih]
          | false =>
              simp only [List.filterMap_cons, localPick, hp, hhas, if_false]
              rw [List.filter_cons]
              simp [hhas, ih]

/-- Structure of the merge under distinct usable ids: the result is the
server pairs followed by the non-colliding local pairs. -/
theorem reconcile_eq (serverItems localItems : List Product)
    (hs : (usableKeys serverItems).Nodup)
    (hl : (usableKeys localItems).Nodup) :
    reconcile serverItems localItems
      = (serverItems.filterMap pairOf
          ++ localItems.filterMap
              (localPick (serverItems.filterMap pairOf))).map Prod.snd := by
  unfold reconcile
  rw [foldl_addServer serverItems [] hs (by simp), List.nil_append,
    foldl_addLocal localItems (serverItems.filterMap pairOf) hl]

theorem filter_congr_on {α : Type} (l : List α) (p q : α → Bool)
    (h : ∀ a ∈ l, p a = q a) : l.filter p = l.filter q := by
  induction l with
  | nil => rfl
  | cons a rest ih =>
      have ha := h a (List.mem_cons_self a rest)
      have ih' := ih (fun b hb => h b (List.mem_cons_of_mem a hb))
      rw [List.filter_cons, List.filter_cons, ha, ih']

theorem truthyId_of_truthy (p : Product) (h : truthy p.product_id = true) :
    ∃ k, truthyId p = some k := by
  unfold truthy at h
  unfold truthyId
  cases hp : p.product_id with
  | none =>
      rw [hp] at h
      exact absurd h (by simp)
  | some s =>
      rw [hp] at h
      by_cases hs : s = ""
      · rw [hs] at h
        simp at h
      · exact ⟨s, by simp [hs]⟩

theorem truthy_of_truthyId (p : Product) (k : String)
    (h : truthyId p = some k) : truthy p.product_id = true := by
  unfold truthyId at h
  unfold truthy
  cases hp : p.product_id with
  | none =>
      rw [hp] at h
      simp at h
  | some s =>
      rw [hp] at h
      by_cases hs : s = ""
      · rw [hs] at h
        simp at h
      · simp [hs]

theorem mapHas_pairOf_true (serverItems : List Product) (k : String)
    (hmem : k ∈ usableKeys serverItems) :
    mapHas (serverItems.filterMap pairOf) k = true :=
  (mapHas_iff _ _).mpr (by rw [pairOf_keys]; exact hmem)

theorem mapHas_pairOf_false (serverItems : List Product) (k : String)
    (hmem : k ∉ usableKeys serverItems) :
    mapHas (serverItems.filterMap pairOf) k = false := by
  cases hb : mapHas (serverItems.filterMap pairOf) k
  · rfl
  · have := (mapHas_iff _ _).mp hb
    rw [pairOf_keys] at this
    exact absurd this hmem

/-! ### C5 — reconcile is the id-keyed union with server precedence -/

/-- C5: on inputs whose usable `product_id`s are duplicate-free (the stated
id-uniqueness invariant), `reconcile` produces exactly the union of the two
id-keyed sets: every server record with a usable id appears whole in the
result (server wins on collision — no field-level merge can occur since the
local record with the same id contributes nothing), every local record whose
id the server does not know is preserved unchanged, the result length is the
number of distinct usable ids in the union, and no id occurs twice in the
result. -/
theorem reconcile_union_server_precedence (serverItems localItems : List Product)
    (hs : (usableKeys serverItems).Nodup)
    (hl : (usableKeys localItems).Nodup) :
    (∀ p ∈ serverItems, truthy p.product_id = true →
        p ∈ reconcile serverItems localItems)
    ∧ (∀ p ∈ localItems, ∀ k, truthyId p = some k →
        k ∉ usableKeys serverItems → p ∈ reconcile serverItems localItems)
    ∧ (reconcile serverItems localItems).length
        = ((usableKeys serverItems ++ usableKeys localItems).toFinset).card
    ∧ (usableKeys (reconcile serverItems localItems)).Nodup := by
  refine ⟨?_, ?_, ?_, ?_⟩
  · intro p hp ht
    obtain ⟨k, hk⟩ := truthyId_of_truthy p ht
    rw [reconcile_eq serverItems localItems hs hl]
    refine List.mem_map.mpr ⟨(k, p), ?_, rfl⟩
    refine List.mem_append_left _ ?_
    exact List.mem_filterMap.mpr ⟨p, hp, by simp [pairOf, hk]⟩
  · intro p hp k hk hnotin
    rw [reconcile_eq serverItems localItems hs hl]
    refine List.mem_map.mpr ⟨(k, p), ?_, rfl⟩
    refine List.mem_append_right _ ?_
    refine List.mem_filterMap.mpr ⟨p, hp, ?_⟩
    simp [localPick, hk, mapHas_pairOf_false serverItems k hnotin]
  · rw [reconcile_eq serverItems localItems hs hl]
    rw [List.length_map, List.length_append]
    have hAlen : (serverItems.filterMap pairOf).length
        = (usableKeys serverItems).length := by
      have h1 := congrArg List.length (pairOf_keys serverItems)
      rwa [List.length_map] at h1
    have hBlen : (localItems.filterMap
          (localPick (serverItems.filterMap pairOf))).length
        = ((usableKeys localItems).filter
            (fun k => !(mapHas (serverItems.filterMap pairOf) k))).length := by
      have h1 := congrArg List.length
        (localPick_keys (serverItems.filterMap pairOf) localItems)
      rwa [List.length_map] at h1
    have hpred : ((usableKeys localItems).filter
          (fun k => !(mapHas (serverItems.filterMap pairOf) k)))
        = ((usableKeys localItems).filter
            (fun k => decide (k ∉ usableKeys serverItems))) := by
      refine filter_congr_on _ _ _ ?_
      intro k _
      by_cases hmem : k ∈ usableKeys serverItems
      · simp [mapHas_pairOf_true serverItems k hmem, hmem]
      · simp [mapHas_pairOf_false serverItems k hmem, hmem]
    rw [hAlen, hBlen, hpred, List.toFinset_append,
      ← Finset.union_sdiff_self_eq_union,
      Finset.card_union_of_disjoint Finset.disjoint_sdiff,
      List.toFinset_card_of_nodup hs]
    congr 1
    have hset : ((usableKeys localItems).toFinset
          \ (usableKeys serverItems).toFinset)
        = ((usableKeys localItems).filter
            (fun k => decide (k ∉ usableKeys serverItems))).toFinset := by
      ext a
      simp [List.mem_toFinset, Finset.mem_sdiff, List.mem_filter]
    rw [hset, List.toFinset_card_of_nodup (hl.filter _)]
  · rw [reconcile_eq serverItems localItems hs hl]
    have hgoodA : ∀ e ∈ serverItems.filterMap pairOf,
        truthyId e.2 = some e.1 := by
      intro e he
      obtain ⟨p, _, hpe⟩ := List.mem_filterMap.mp he
      unfold pairOf at hpe
      cases hq : truthyId p with
      | none =>
          rw [hq] at hpe
          simp at hpe
      | some k =>
          rw [hq] at hpe
          have hpe2 : some (k, p) = some e := hpe
          obtain rfl := Option.some.inj hpe2
          exact hq
    have hgoodB : ∀ e ∈ localItems.filterMap
          (localPick (serverItems.filterMap pairOf)),
        truthyId e.2 = some e.1 := by
      intro e he
      obtain ⟨p, _, hpe⟩ := List.mem_filterMap.mp he
      cases hq : truthyId p with
      | none =>
          simp [localPick, hq] at hpe
      | some k =>
          cases hhas : mapHas (serverItems.filterMap pairOf) k with
          | true =>
              simp [localPick, hq, hhas] at hpe
          | false =>
              simp only [localPick, hq, hhas, Bool.false_eq_true,
                if_false] at hpe
              obtain rfl := Option.some.inj hpe
              exact hq
    have hkeys : usableKeys (((serverItems.filterMap pairOf)
          ++ (localItems.filterMap
              (localPick (serverItems.filterMap pairOf)))).map Prod.snd)
        = ((serverItems.filterMap pairOf)
            ++ (localItems.filterMap
                (localPick (serverItems.filterMap pairOf)))).map Prod.fst := by
      unfold usableKeys
      rw [List.filterMap_map]
      refine filterMap_eq_map_of_some _ _ _ ?_
      intro e he
      rcases List.mem_append.mp he with h | h
      · simpa [Function.comp] using hgoodA e h
      · simpa [Function.comp] using hgoodB e h
    rw [hkeys, List.map_append, pairOf_keys, localPick_keys]
    refine List.Nodup.append hs (hl.filter _) ?_
    intro a haS haF
    have hcond := (List.mem_filter.mp haF).2
    rw [mapHas_pairOf_true serverItems a haS] at hcond
    simp at hcond

/-- Witness for C5: server knows `A` (updated record), local has a stale `A`
and a fresh `B`; the merge keeps the server's `A` whole and preserves the
local-only `B`, with result size 2 = number of distinct ids. -/
theorem reconcile_union_server_precedence_witness :
    (sampleItem "A") ∈ reconcile [sampleItem "A"]
        [{ product_id := some "A", title := some "local" }, sampleItem "B"]
    ∧ (sampleItem "B") ∈ reconcile [sampleItem "A"]
        [{ product_id := some "A", title := some "local" }, sampleItem "B"]
    ∧ (reconcile [sampleItem "A"]
        [{ product_id := some "A", title := some "local" },
         sampleItem "B"]).length = 2 := by
  have h := reconcile_union_server_precedence [sampleItem "A"]
    [{ product_id := some "A", title := some "local" }, sampleItem "B"]
    (by decide) (by decide)
  refine ⟨?_, ?_, ?_⟩
  · exact h.1 (sampleItem "A") (by decide) (by decide)
  · exact h.2.1 (sampleItem "B") (by decide) "B" (by decide) (by decide)
  · refine h.2.2.1.trans ?_
    decide

/-! ### C10 — falsy-id records are silently discarded by the merge -/

/-- C10: every record of a reconcile result carries a truthy `product_id`
(records with a missing or falsy id, server-side or local, never survive the
merge), and reconciling an empty server list against a one-record local list
whose record has no id yields the empty list — strictly smaller than the
local list even though no id collides with the server. -/
theorem reconcile_only_truthy_ids (serverItems localItems : List Product) :
    (∀ p ∈ reconcile serverItems localItems, truthy p.product_id = true)
    ∧ reconcile [] [({} : Product)] = []
    ∧ ([({} : Product)] : List Product).length = 1 := by
  have hgood : ∀ (l : List Product) (m : List (String × Product)),
      (∀ e ∈ m, truthy e.2.product_id = true) →
      (∀ e ∈ List.foldl addServer m l, truthy e.2.product_id = true)
      ∧ (∀ e ∈ List.foldl addLocal m l, truthy e.2.product_id = true) := by
    intro l
    induction l with
    | nil =>
        intro m hm
        exact ⟨hm, hm⟩
    | cons p rest ih =>
        intro m hm
        have hmemSet : ∀ k, truthyId p = some k →
            ∀ e ∈ mapSet m k p, truthy e.2.product_id = true := by
          intro k hk e he
          have hmem : e ∈ m ∨ e = (k, p) := by
            clear hm
            induction m with
            | nil =>
                simp [mapSet] at he
                exact Or.inr he
            | cons x rest' ihm =>
                by_cases hx : x.1 = k
                · simp [mapSet, hx] at he
                  rcases he with he | he
                  · exact Or.inr (by simp [he])
                  · exact Or.inl (List.mem_cons_of_mem x he)
                · simp only [mapSet, hx, if_false] at he
                  rcases List.mem_cons.mp he with he | he
                  · exact Or.inl (by simp [he])
                  · rcases ihm he with he2 | he2
                    · exact Or.inl (List.mem_cons_of_mem x he2)
                    · exact Or.inr he2
          rcases hmem with hmem | hmem
          · exact hm e hmem
          · rw [hmem]
            exact truthy_of_truthyId p k hk
        constructor
        · rw [List.foldl_cons]
          have : ∀ e ∈ addServer m p, truthy e.2.product_id = true := by
            unfold addServer
            cases hk : truthyId p with
            | none => exact hm
            | some k => exact hmemSet k hk
          exact (ih (addServer m p) this).1
        · rw [List.foldl_cons]
          have : ∀ e ∈ addLocal m p, truthy e.2.product_id = true := by
            unfold addLocal
            cases hk : truthyId p with
            | none => exact hm
            | some k =>
                cases hhas : mapHas m k with
                | true =>
                    simp only [hhas, if_true]
                    exact hm
                | false =>
                    simp only [hhas, Bool.false_eq_true, if_false]
                    exact hmemSet k hk
          exact (ih (addLocal m p) this).2
  refine ⟨?_, by decide, by decide⟩
  intro p hp
  unfold reconcile at hp
  obtain ⟨e, he, hep⟩ := List.mem_map.mp hp
  have h1 : ∀ e' ∈ List.foldl addServer [] serverItems,
      truthy e'.2.product_id = true :=
    (hgood serverItems [] (by simp)).1
  have h2 := (hgood localItems (List.foldl addServer [] serverItems) h1).2
  rw [← hep]
  exact h2 e he

/-- Witness for C10: a server record with a usable id survives the merge with
a truthy id. -/
theorem reconcile_only_truthy_ids_witness :
    truthy (sampleItem "A").product_id = true :=
  (reconcile_only_truthy_ids [sampleItem "A"] []).1 (sampleItem "A") (by decide)

end Compareon
